import Mathlib

/-!
Verification of the moderation-policy core of the KEITH-MD repository.

Strings are modelled as lists of Unicode code points (`Str := List Nat`);
`codes` converts a Lean string literal for concrete test inputs.  JavaScript
`toLowerCase` is modelled on the ASCII range (the only range the verified
claims exercise), and `Date.now()` timestamps are nonnegative integers in
milliseconds.  Each JavaScript module's mutable `Map` state is modelled as an
explicit state value threaded through the operations.
-/

namespace KeithMD

/-- Strings as lists of code points. -/
abbrev Str := List Nat

/-- Convert a Lean string literal to its code-point list, for concrete inputs. -/
def codes (s : String) : Str := s.data.map Char.toNat

/-- JavaScript `toLowerCase` on one code point, ASCII range. -/
def jsLowerChar (c : Nat) : Nat := if 65 ≤ c ∧ c ≤ 90 then c + 32 else c

/-- JavaScript `text.toLowerCase()`. -/
def jsLower (t : Str) : Str := t.map jsLowerChar

/-- JavaScript regex word character (`\w`): letters, digits, underscore. -/
def isWordChar (c : Nat) : Bool :=
  decide ((48 ≤ c ∧ c ≤ 57) ∨ (65 ≤ c ∧ c ≤ 90) ∨ (97 ≤ c ∧ c ≤ 122) ∨ c = 95)

/-- The composite map key `${groupJid}:${userJid}` used by every module
(58 is the code of the colon). -/
def mkKey (g u : Str) : Str := g ++ 58 :: u

/-- JavaScript `s.startsWith(p)`. -/
def jsStartsWith (p s : Str) : Bool := s.take p.length == p

/-- JavaScript `s.endsWith(p)`. -/
def jsEndsWith (p s : Str) : Bool := s.drop (s.length - p.length) == p

/-- JavaScript `s.includes(n)`: `n` occurs as a contiguous substring of `s`. -/
def jsIncludes (n s : Str) : Bool :=
  (List.range (s.length + 1)).any (fun i => jsStartsWith n (s.drop i))

/-- The substring relation `jsIncludes` decides. -/
def SubstringOf (n s : Str) : Prop := ∃ l r, s = l ++ n ++ r

/-- The `status` enum `('on', 'off')` shared by the settings tables. -/
inductive Status
  | on
  | off
deriving DecidableEq

/-- Insert into a list kept sorted descending by the key `f` (used to model
the SQL `ORDER BY _ DESC` of the bulk queries). -/
def insertDesc (f : α → Nat) (x : α) : List α → List α
  | [] => [x]
  | y :: ys => if f y ≤ f x then x :: y :: ys else y :: insertDesc f x ys

/-- Sort a list descending by the key `f` (model of `ORDER BY f DESC`). -/
def sortDescBy (f : α → Nat) : List α → List α
  | [] => []
  | x :: xs => insertDesc f x (sortDescBy f xs)

namespace AntiBad

/-- The `filter_type` enum of the antibad settings table. -/
inductive FilterType
  | strict
  | normal
  | loose
deriving DecidableEq

/-- One position of the test `new RegExp("\\b" + w + "\\b", "i").test(t)`:
`w` matches at index `i` of `t` with a word boundary on both sides.  This is
the ECMAScript `\b` semantics for a pattern `w` made of word characters. -/
def matchStrictAt (w t : Str) (i : Nat) : Bool :=
  jsStartsWith w (t.drop i)
    && (i == 0 || !isWordChar (t.getD (i - 1) 32))
    && (i + w.length == t.length || !isWordChar (t.getD (i + w.length) 32))

/-- The whole-string regex test `\bw\b` against `t`. -/
def regexBoundaryTest (w t : Str) : Bool :=
  (List.range (t.length + 1)).any (fun i => matchStrictAt w t i)

/-- JavaScript `word.replace(/c/g, r)` for single characters. -/
def replaceAll (c r : Nat) (w : Str) : Str := w.map (fun x => if x = c then r else x)

/-- Helper for `jsDedup`: drop elements already seen, keeping first occurrences. -/
def jsDedupAux (seen : List Str) : List Str → List Str
  | [] => []
  | x :: xs => if x ∈ seen then jsDedupAux seen xs else x :: jsDedupAux (x :: seen) xs

/-- JavaScript `[...new Set(l)]`: deduplicate keeping first occurrences. -/
def jsDedup (l : List Str) : List Str := jsDedupAux [] l

/-- The source's `generateLeetVariations(word)`: the word itself plus, for each
of the letters a, e, i, s, o present in it, the global single-letter
replacements (a to @ or 4, e to 3, i to 1 or !, s to 5 or $, o to 0),
deduplicated.  Code points: a=97 @=64 4=52 e=101 3=51 i=105 1=49 !=33 s=115
5=53 $=36 o=111 0=48. -/
def generateLeetVariations (word : Str) : List Str :=
  jsDedup ([word]
    ++ (if word.contains 97 then [replaceAll 97 64 word, replaceAll 97 52 word] else [])
    ++ (if word.contains 101 then [replaceAll 101 51 word] else [])
    ++ (if word.contains 105 then [replaceAll 105 49 word, replaceAll 105 33 word] else [])
    ++ (if word.contains 115 then [replaceAll 115 53 word, replaceAll 115 36 word] else [])
    ++ (if word.contains 111 then [replaceAll 111 48 word] else []))

/-- The source's `containsBadWord(text, badWordsList, filterType)`. -/
def containsBadWord (text : Str) (badWordsList : List Str) (filterType : FilterType) : Bool :=
  if text.isEmpty || badWordsList.isEmpty then false else
  let lowerText := jsLower text
  match filterType with
  | .strict => badWordsList.any (fun w => regexBoundaryTest w lowerText)
  | .loose => badWordsList.any (fun w => jsIncludes w lowerText)
  | .normal => badWordsList.any (fun w =>
      (jsIncludes (32 :: w ++ [32]) lowerText
        || jsStartsWith (w ++ [32]) lowerText
        || jsEndsWith (32 :: w) lowerText
        || lowerText == w)
      || (generateLeetVariations w).any (fun v => jsIncludes v lowerText))

end AntiBad

namespace AutoBlock

/-- The source's `containsTriggerWord(text, triggerWordsList)` from
`autoblock.js`: word-boundary regex test or plain substring containment on
the lowercased text. -/
def containsTriggerWord (text : Str) (triggerWordsList : List Str) : Bool :=
  if text.isEmpty || triggerWordsList.isEmpty then false else
  let lowerText := jsLower text
  triggerWordsList.any (fun w =>
    AntiBad.regexBoundaryTest w lowerText || jsIncludes w lowerText)

end AutoBlock

namespace AntiLink

/-- The module-level `warnCounts` map of the antilink module; `get(key) || 0`
makes an absent key read as 0, so the map is modelled with default 0. -/
abbrev CountMap := Str → Nat

/-- The source's `getWarnCount(groupJid, userJid)`. -/
def getWarnCount (m : CountMap) (g u : Str) : Nat := m (mkKey g u)

/-- The source's `incrementWarnCount(groupJid, userJid)`: returns the new
count and the updated map. -/
def incrementWarnCount (m : CountMap) (g u : Str) : Nat × CountMap :=
  let c := m (mkKey g u) + 1
  (c, fun k => if k = mkKey g u then c else m k)

/-- The source's `resetWarnCount(groupJid, userJid)`: deleting the key makes
it read as 0. -/
def resetWarnCount (m : CountMap) (g u : Str) : CountMap :=
  fun k => if k = mkKey g u then 0 else m k

/-- The source's `clearAllWarns(groupJid)`: delete every key starting with
`${groupJid}:`. -/
def clearAllWarns (m : CountMap) (g : Str) : CountMap :=
  fun k => if jsStartsWith (g ++ [58]) k then 0 else m k

end AntiLink

namespace AntiSpam

/-- The module-level `userMessages` map: key to ordered timestamp list, with
`has(key)` distinguishing an absent key from an empty list. -/
abbrev SpamState := Str → Option (List Nat)

/-- The state with no tracked keys. -/
def emptySpamState : SpamState := fun _ => none

/-- The source's `addUserMessage(groupJid, userJid)` at clock value `now`:
ensure the key exists, push `now`, and if the list then exceeds 20 entries
shift off the oldest. -/
def addUserMessage (st : SpamState) (g u : Str) (now : Nat) : SpamState :=
  let key := mkKey g u
  let ts := (st key).getD [] ++ [now]
  fun k => if k = key then some (if 20 < ts.length then ts.tail else ts) else st k

/-- The source's `getUserMessageCount(groupJid, userJid, timeWindowSeconds)`
at clock value `now`: filter the key's timestamps to the window, store the
filtered list back, and return its length.  (JavaScript `now - time` can be
negative and then always passes the comparison; natural-number subtraction
truncates to 0 and agrees.) -/
def getUserMessageCount (st : SpamState) (g u : Str) (timeWindowSeconds now : Nat) :
    Nat × SpamState :=
  let key := mkKey g u
  match st key with
  | none => (0, st)
  | some ts =>
    let recent := ts.filter (fun time => now - time ≤ timeWindowSeconds * 1000)
    (recent.length, fun k => if k = key then some recent else st k)

/-- The source's `clearUserMessages(groupJid, userJid)`. -/
def clearUserMessages (st : SpamState) (g u : Str) : SpamState :=
  fun k => if k = mkKey g u then none else st k

/-- The source's `clearAllGroupMessages(groupJid)`. -/
def clearAllGroupMessages (st : SpamState) (g : Str) : SpamState :=
  fun k => if jsStartsWith (g ++ [58]) k then none else st k

/-- The `userMessages.clear()` performed by `clearAllGroupsSpamWarns`. -/
def clearAllMessages (_st : SpamState) : SpamState := fun _ => none

/-- One row of the `antispam` settings table (fields the verified claims
touch; presentation-only columns are omitted). -/
structure AntiSpamRow where
  groupJid : Str
  status : Status
  message_limit : Nat
  time_window : Nat
  warn_limit : Nat
  updatedAt : Nat
deriving DecidableEq

/-- The source's `getAllAntiSpamGroups()`: rows with `status = 'on'`,
ordered by `updatedAt` descending. -/
def getAllAntiSpamGroups (db : List AntiSpamRow) : List AntiSpamRow :=
  sortDescBy (fun r => r.updatedAt) (db.filter (fun r => r.status = Status.on))

end AntiSpam

namespace GroupEvents

/-- One row of the `groupevents` settings table (fields the verified claims
touch). -/
structure GroupEventsRow where
  groupJid : Str
  enabled : Bool
  warn_limit : Nat
  updatedAt : Nat
deriving DecidableEq

/-- The source's `getAllGroupEventsGroups()`: rows with `enabled = true`,
ordered by `updatedAt` descending. -/
def getAllGroupEventsGroups (db : List GroupEventsRow) : List GroupEventsRow :=
  sortDescBy (fun r => r.updatedAt) (db.filter (fun r => r.enabled))

end GroupEvents

namespace Warn

/-- One row of the `warns` table. -/
structure WarnRow where
  id : Nat
  groupJid : Str
  userJid : Str
  warnedBy : Str
  reason : Str
  createdAt : Nat
deriving DecidableEq

/-- A `warnCache` entry `{id, warnedBy, reason, createdAt}`. -/
structure WarnEntry where
  id : Nat
  warnedBy : Str
  reason : Str
  createdAt : Nat
deriving DecidableEq

/-- The cache entry built from a database row. -/
def toEntry (r : WarnRow) : WarnEntry :=
  ⟨r.id, r.warnedBy, r.reason, r.createdAt⟩

/-- One row of the `warn_settings` table (fields the verified claims touch;
presentation-only columns are omitted). -/
structure WarnSettingsRow where
  groupJid : Str
  status : Status
  warn_limit : Nat
  auto_reset_days : Nat
  updatedAt : Nat
deriving DecidableEq

/-- The whole mutable state of `warn.js`: the two tables (with the
autoincrement counter of `warns.id`) and the in-memory `warnCache`. -/
structure WarnState where
  settings : List WarnSettingsRow
  rows : List WarnRow
  nextId : Nat
  cache : Str → Option (List WarnEntry)

/-- Lookup of a group's settings row. -/
def lookupSettings (l : List WarnSettingsRow) (g : Str) : Option WarnSettingsRow :=
  l.find? (fun s => s.groupJid == g)

/-- The source's `getWarnSettings(groupJid)`: `findOrCreate` with the
documented defaults (status on, warn_limit 3, auto_reset_days 7). -/
def getWarnSettings (st : WarnState) (g : Str) (now : Nat) :
    WarnSettingsRow × WarnState :=
  match lookupSettings st.settings g with
  | some s => (s, st)
  | none =>
    let s : WarnSettingsRow := ⟨g, Status.on, 3, 7, now⟩
    (s, { st with settings := st.settings ++ [s] })

/-- The source's `getUserWarnCount(groupJid, userJid)`: cache-first, falling
back to a database count. -/
def getUserWarnCount (st : WarnState) (g u : Str) : Nat :=
  match st.cache (mkKey g u) with
  | some l => l.length
  | none => (st.rows.filter (fun r => r.groupJid == g && r.userJid == u)).length

/-- The source's `addWarn(groupJid, userJid, warnedBy, reason)` at clock value
`now`: read settings, create the row, append the entry to the cache list of
the key (creating it when absent), and return
`(warnCount, warnId, limit)` with the updated state. -/
def addWarn (st : WarnState) (g u warnedBy reason : Str) (now : Nat) :
    (Nat × Nat × Nat) × WarnState :=
  let s := getWarnSettings st g now
  let st1 := s.2
  let row : WarnRow := ⟨st1.nextId, g, u, warnedBy, reason, now⟩
  let key := mkKey g u
  let newList := ((st1.cache key).getD []) ++ [toEntry row]
  let st2 : WarnState :=
    { st1 with
      rows := st1.rows ++ [row]
      nextId := st1.nextId + 1
      cache := fun k => if k = key then some newList else st1.cache k }
  ((getUserWarnCount st2 g u, row.id, s.1.warn_limit), st2)

/-- The source's `getUserWarns(groupJid, userJid)`: the cache list when the
key is cached, otherwise the database rows of the pair ordered by `createdAt`
descending. -/
def getUserWarns (st : WarnState) (g u : Str) : List WarnEntry :=
  match st.cache (mkKey g u) with
  | some l => l
  | none =>
    (sortDescBy (fun r => r.createdAt)
      (st.rows.filter (fun r => r.groupJid == g && r.userJid == u))).map toEntry

/-- The source's `clearUserWarns(groupJid, userJid)`: destroy the pair's rows
and delete the cache key. -/
def clearUserWarns (st : WarnState) (g u : Str) : WarnState :=
  { st with
    rows := st.rows.filter (fun r => !(r.groupJid == g && r.userJid == u))
    cache := fun k => if k = mkKey g u then none else st.cache k }

/-- The cache built by `refreshWarnCache` from rows: each key maps to its
rows' entries in table order, and a key is present iff it has a row. -/
def buildCache (rows : List WarnRow) : Str → Option (List WarnEntry) :=
  fun k =>
    let l := (rows.filter (fun r => mkKey r.groupJid r.userJid == k)).map toEntry
    if l.isEmpty then none else some l

/-- The source's `refreshWarnCache()`. -/
def refreshWarnCache (st : WarnState) : WarnState :=
  { st with cache := buildCache st.rows }

/-- One day in milliseconds. -/
def dayMs : Nat := 86400000

/-- The loop of `autoResetOldWarns`.  Each iteration first evaluates
`const cutoffDate = new Date(now.setDate(now.getDate() - days))` (which
mutates `now`) and then builds the destroy filter
`{ createdAt: { [DataTypes.Op.lt]: cutoffDate } }`.  Sequelize's `DataTypes`
collection has no `Op` member (`Op` is a top-level export), so reading
`DataTypes.Op.lt` throws a TypeError before any destroy runs: the first
iteration always errors out with the database rows untouched, modelled as
`Except.error` carrying the state reached so far.  Only when there are no
settings rows at all does the loop complete and `refreshWarnCache()` run. -/
def autoResetGo (settings : List WarnSettingsRow) (_now : Nat) (st : WarnState) :
    Except WarnState WarnState :=
  match settings with
  | [] => Except.ok (refreshWarnCache st)
  | _s :: _rest => Except.error st

/-- The source's `autoResetOldWarns()` at clock value `now`: the whole sweep
sits in a `try`, and the catch only logs, so a thrown iteration leaves the
state as it was at the throw. -/
def autoResetOldWarns (st : WarnState) (now : Nat) : WarnState :=
  match autoResetGo st.settings now st with
  | Except.ok st1 => st1
  | Except.error st1 => st1

/-- The source's `getAllWarnGroups()`: every settings row (note: no status
filter), ordered by `updatedAt` descending. -/
def getAllWarnGroups (db : List WarnSettingsRow) : List WarnSettingsRow :=
  sortDescBy (fun r => r.updatedAt) db

/-- Iterate `addWarn` with fixed arguments, keeping only the state. -/
def addWarnIter (g u wb rs : Str) (now : Nat) : Nat → WarnState → WarnState
  | 0, st => st
  | n + 1, st => (addWarn (addWarnIter g u wb rs now n st) g u wb rs now).2

end Warn

/-- Specification-side predicate for the strict filter: some occurrence of the
word `w` in the raw text matches case-insensitively and sits at a token
boundary (start of text or preceded by a non-word character, and end of text
or followed by a non-word character). -/
def OccursAtBoundaryCI (w text : Str) : Prop :=
  ∃ i, i + w.length ≤ text.length ∧
    jsLower ((text.drop i).take w.length) = w ∧
    (i = 0 ∨ isWordChar (text.getD (i - 1) 32) = false) ∧
    (i + w.length = text.length ∨ isWordChar (text.getD (i + w.length) 32) = false)

/-! Concrete fixtures used by witnesses and counterexamples. -/

/-- A sample group jid. -/
def gJ : Str := codes "g@g.us"

/-- A sample user jid. -/
def uJ : Str := codes "u@s.whatsapp.net"

/-- A warn state with settings for `gJ` (warn_limit 4), no warns, empty cache. -/
def warnSt0 : Warn.WarnState := ⟨[⟨gJ, Status.on, 4, 7, 0⟩], [], 0, fun _ => none⟩

/-- The state after two `addWarn`s for `(gJ, uJ)` at times 100 and 200. -/
def warnSt2 : Warn.WarnState :=
  (Warn.addWarn ((Warn.addWarn warnSt0 gJ uJ (codes "mod") (codes "r1") 100).2)
    gJ uJ (codes "mod") (codes "r2") 200).2

/-- A warn of group `g2` that is 10 days old at clock `20 * dayMs`. -/
def c6rowOld : Warn.WarnRow := ⟨0, codes "g2", uJ, codes "m", codes "r", 10 * Warn.dayMs⟩

/-- Two groups, each with `auto_reset_days = 7`, and the 10-day-old warn of `g2`. -/
def c6stateTwo : Warn.WarnState :=
  ⟨[⟨codes "g1", Status.on, 3, 7, 0⟩, ⟨codes "g2", Status.on, 3, 7, 0⟩],
    [c6rowOld], 1, fun _ => none⟩

/-- Only group `g2` with `auto_reset_days = 7`, and the same 10-day-old warn. -/
def c6stateOne : Warn.WarnState :=
  ⟨[⟨codes "g2", Status.on, 3, 7, 0⟩], [c6rowOld], 1, fun _ => none⟩

/-- A warn-settings row whose status is `off`. -/
def warnRowOff : Warn.WarnSettingsRow := ⟨codes "group1", Status.off, 3, 7, 5⟩

/-- The empty in-memory counter map (`new Map()` reads as 0 everywhere). -/
def emptyCounts : AntiLink.CountMap := fun _ => 0

/-- A rate-window state where `(gJ, uJ)` has the single timestamp 5. -/
def spamStW : AntiSpam.SpamState :=
  fun k => if k = mkKey gJ uJ then some [5] else none

/-- A rate-window state where `(gJ, uJ)` already has 20 timestamps. -/
def spamStFull : AntiSpam.SpamState :=
  fun k => if k = mkKey gJ uJ then some (List.range 20) else none

/-! Helper lemmas about the list and string model. -/

theorem mem_insertDesc {f : α → Nat} {x a : α} : ∀ {l : List α},
    a ∈ insertDesc f x l ↔ a = x ∨ a ∈ l := by
  intro l
  induction l with
  | nil => simp [insertDesc]
  | cons y ys ih =>
    simp only [insertDesc]
    split
    · simp
    · simp only [List.mem_cons, ih]
      tauto

theorem pairwise_insertDesc {f : α → Nat} {x : α} {l : List α}
    (h : l.Pairwise (fun a b => f b ≤ f a)) :
    (insertDesc f x l).Pairwise (fun a b => f b ≤ f a) := by
  induction l with
  | nil => simp [insertDesc]
  | cons y ys ih =>
    rw [List.pairwise_cons] at h
    simp only [insertDesc]
    split
    · rename_i hc
      rw [List.pairwise_cons]
      refine ⟨?_, List.pairwise_cons.mpr h⟩
      intro b hb
      rcases List.mem_cons.mp hb with rfl | hb
      · exact hc
      · exact le_trans (h.1 b hb) hc
    · rename_i hc
      rw [List.pairwise_cons]
      refine ⟨?_, ih h.2⟩
      intro b hb
      rcases mem_insertDesc.mp hb with rfl | hb
      · omega
      · exact h.1 b hb

theorem mem_sortDescBy {f : α → Nat} {a : α} : ∀ {l : List α},
    a ∈ sortDescBy f l ↔ a ∈ l := by
  intro l
  induction l with
  | nil => simp [sortDescBy]
  | cons x xs ih => simp [sortDescBy, mem_insertDesc, ih]

theorem pairwise_sortDescBy {f : α → Nat} : ∀ (l : List α),
    (sortDescBy f l).Pairwise (fun a b => f b ≤ f a) := by
  intro l
  induction l with
  | nil => simp [sortDescBy]
  | cons x xs ih => exact pairwise_insertDesc ih

theorem mem_jsDedupAux {a : Str} : ∀ (l seen : List Str),
    a ∈ AntiBad.jsDedupAux seen l ↔ a ∈ l ∧ a ∉ seen := by
  intro l
  induction l with
  | nil => intro seen; simp [AntiBad.jsDedupAux]
  | cons x xs ih =>
    intro seen
    rw [AntiBad.jsDedupAux]
    split
    · rename_i hx
      rw [ih]
      constructor
      · rintro ⟨hm, hns⟩
        exact ⟨List.mem_cons_of_mem _ hm, hns⟩
      · rintro ⟨hm, hns⟩
        rcases List.mem_cons.mp hm with rfl | hm
        · exact absurd hx hns
        · exact ⟨hm, hns⟩
    · rename_i hx
      constructor
      · intro hm
        rcases List.mem_cons.mp hm with rfl | hm
        · exact ⟨List.mem_cons_self _ _, hx⟩
        · obtain ⟨hm', hns⟩ := (ih _).mp hm
          exact ⟨List.mem_cons_of_mem _ hm', fun hs => hns (List.mem_cons_of_mem _ hs)⟩
      · rintro ⟨hm, hns⟩
        rcases List.mem_cons.mp hm with rfl | hm
        · exact List.mem_cons_self _ _
        · by_cases hax : a = x
          · subst hax; exact List.mem_cons_self _ _
          · exact List.mem_cons_of_mem _
              ((ih _).mpr ⟨hm, fun hs => (List.mem_cons.mp hs).elim hax hns⟩)

theorem mem_jsDedup {a : Str} {l : List Str} : a ∈ AntiBad.jsDedup l ↔ a ∈ l := by
  rw [AntiBad.jsDedup, mem_jsDedupAux]
  simp

theorem mem_ite_nil {b : Prop} [Decidable b] {l : List α} {a : α} :
    a ∈ (if b then l else []) ↔ b ∧ a ∈ l := by
  split <;> simp_all

theorem jsStartsWith_iff {p s : Str} : jsStartsWith p s = true ↔ s.take p.length = p := by
  simp [jsStartsWith]

theorem jsIncludes_of_substring {n s : Str} (h : SubstringOf n s) : jsIncludes n s = true := by
  obtain ⟨l, r, rfl⟩ := h
  rw [jsIncludes, List.any_eq_true]
  refine ⟨l.length, ?_, ?_⟩
  · rw [List.mem_range]
    simp only [List.length_append]
    omega
  · rw [jsStartsWith_iff, List.append_assoc, List.drop_left, List.take_left]

theorem jsLowerChar_32 : jsLowerChar 32 = 32 := rfl

theorem jsLower_getD (t : Str) (i : Nat) :
    (jsLower t).getD i 32 = jsLowerChar (t.getD i 32) := by
  have := List.getD_map (l := t) (n := i) jsLowerChar (d := 32)
  rw [jsLowerChar_32] at this
  exact this

theorem isWordChar_jsLowerChar (c : Nat) : isWordChar (jsLowerChar c) = isWordChar c := by
  unfold jsLowerChar isWordChar
  split
  · rw [decide_eq_decide]
    omega
  · rfl

theorem jsStartsWith_nil : jsStartsWith [] s = true := by
  simp [jsStartsWith]

theorem jsStartsWith_cons_iff {p s : Nat} {ps ss : Str} :
    jsStartsWith (p :: ps) (s :: ss) = true ↔ s = p ∧ jsStartsWith ps ss = true := by
  rw [jsStartsWith_iff, jsStartsWith_iff]
  simp [List.take_succ_cons]

theorem jsStartsWith_cons_nil {p : Nat} {ps : Str} :
    jsStartsWith (p :: ps) [] = false := by
  simp [jsStartsWith]

theorem mkKey_inj : ∀ (g1 g2 : Str), 58 ∉ g1 → 58 ∉ g2 → ∀ (u1 u2 : Str),
    mkKey g1 u1 = mkKey g2 u2 → g1 = g2 ∧ u1 = u2 := by
  intro g1
  induction g1 with
  | nil =>
    intro g2 h1 h2 u1 u2 heq
    cases g2 with
    | nil =>
      simp only [mkKey, List.nil_append] at heq
      injection heq with _ hu
      exact ⟨rfl, hu⟩
    | cons b bs =>
      simp only [mkKey, List.nil_append, List.cons_append] at heq
      injection heq with hb _
      cases hb
      exact absurd (List.mem_cons_self _ _) h2
  | cons a as ih =>
    intro g2 h1 h2 u1 u2 heq
    cases g2 with
    | nil =>
      simp only [mkKey, List.nil_append, List.cons_append] at heq
      injection heq with hb _
      cases hb
      exact absurd (List.mem_cons_self _ _) h1
    | cons b bs =>
      simp only [mkKey, List.cons_append] at heq
      injection heq with hab htail
      subst hab
      have h1' : (58 : Nat) ∉ as := fun h => h1 (List.mem_cons_of_mem _ h)
      have h2' : (58 : Nat) ∉ bs := fun h => h2 (List.mem_cons_of_mem _ h)
      obtain ⟨hg, hu⟩ := ih bs h1' h2' u1 u2 htail
      exact ⟨by rw [hg], hu⟩

theorem groupKey_startsWith_inj : ∀ (g1 g2 : Str), 58 ∉ g1 → 58 ∉ g2 → ∀ u2 : Str,
    jsStartsWith (g1 ++ [58]) (mkKey g2 u2) = true → g1 = g2 := by
  intro g1
  induction g1 with
  | nil =>
    intro g2 h1 h2 u2 hpre
    cases g2 with
    | nil => rfl
    | cons b bs =>
      simp only [mkKey, List.nil_append, List.cons_append] at hpre
      obtain ⟨hb, _⟩ := jsStartsWith_cons_iff.mp hpre
      cases hb
      exact absurd (List.mem_cons_self _ _) h2
  | cons a as ih =>
    intro g2 h1 h2 u2 hpre
    cases g2 with
    | nil =>
      simp only [mkKey, List.nil_append, List.cons_append] at hpre
      obtain ⟨hb, _⟩ := jsStartsWith_cons_iff.mp hpre
      cases hb
      exact absurd (List.mem_cons_self _ _) h1
    | cons b bs =>
      simp only [mkKey, List.cons_append] at hpre
      obtain ⟨hb, htail⟩ := jsStartsWith_cons_iff.mp hpre
      subst hb
      have h1' : (58 : Nat) ∉ as := fun h => h1 (List.mem_cons_of_mem _ h)
      have h2' : (58 : Nat) ∉ bs := fun h => h2 (List.mem_cons_of_mem _ h)
      rw [ih bs h1' h2' u2 htail]

/-! Claim theorems. -/

/-- C10: `containsBadWord` applied to an empty text or to an empty word list
returns false for every strictness value, and `containsTriggerWord` likewise.
Both embeddings are total Lean functions, and the JavaScript originals return
at the guard before constructing any regex on these inputs, so no exception
can be raised there. -/
theorem matchers_empty_input_safe :
    (∀ (W : List Str) (ft : AntiBad.FilterType), AntiBad.containsBadWord [] W ft = false)
    ∧ (∀ (text : Str) (ft : AntiBad.FilterType), AntiBad.containsBadWord text [] ft = false)
    ∧ (∀ W : List Str, AutoBlock.containsTriggerWord [] W = false)
    ∧ (∀ text : Str, AutoBlock.containsTriggerWord text [] = false) := by
  refine ⟨fun W ft => ?_, fun text ft => ?_, fun W => ?_, fun text => ?_⟩ <;>
    simp [AntiBad.containsBadWord, AutoBlock.containsTriggerWord]

/-- C7 counterexample: `getAllWarnGroups` has no status filter, so a
warn-settings row whose status is `off` is returned by the bulk query,
contradicting the claim that only enabled records are returned. -/
theorem getAllWarnGroups_returns_disabled :
    warnRowOff ∈ Warn.getAllWarnGroups [warnRowOff] ∧ warnRowOff.status ≠ Status.on := by
  decide

/-- C7 amended: `getAllAntiSpamGroups` and `getAllGroupEventsGroups` return
exactly the enabled configuration records ordered by `updatedAt` descending,
but `getAllWarnGroups` returns every warn-settings record regardless of
status, also ordered by `updatedAt` descending. -/
theorem listEnabled_queries_amended :
    (∀ (db : List AntiSpam.AntiSpamRow) (r : AntiSpam.AntiSpamRow),
      r ∈ AntiSpam.getAllAntiSpamGroups db ↔ r ∈ db ∧ r.status = Status.on)
    ∧ (∀ db : List AntiSpam.AntiSpamRow,
      (AntiSpam.getAllAntiSpamGroups db).Pairwise (fun a b => b.updatedAt ≤ a.updatedAt))
    ∧ (∀ (db : List GroupEvents.GroupEventsRow) (r : GroupEvents.GroupEventsRow),
      r ∈ GroupEvents.getAllGroupEventsGroups db ↔ r ∈ db ∧ r.enabled = true)
    ∧ (∀ db : List GroupEvents.GroupEventsRow,
      (GroupEvents.getAllGroupEventsGroups db).Pairwise (fun a b => b.updatedAt ≤ a.updatedAt))
    ∧ (∀ (db : List Warn.WarnSettingsRow) (r : Warn.WarnSettingsRow),
      r ∈ Warn.getAllWarnGroups db ↔ r ∈ db)
    ∧ (∀ db : List Warn.WarnSettingsRow,
      (Warn.getAllWarnGroups db).Pairwise (fun a b => b.updatedAt ≤ a.updatedAt)) := by
  refine ⟨?_, ?_, ?_, ?_, ?_, ?_⟩
  · intro db r
    rw [AntiSpam.getAllAntiSpamGroups, mem_sortDescBy, List.mem_filter]
    simp
  · intro db
    exact pairwise_sortDescBy _
  · intro db r
    rw [GroupEvents.getAllGroupEventsGroups, mem_sortDescBy, List.mem_filter]
  · intro db
    exact pairwise_sortDescBy _
  · intro db r
    rw [Warn.getAllWarnGroups, mem_sortDescBy]
  · intro db
    exact pairwise_sortDescBy _

/-- C5 counterexample: after two `addWarn`s at times 100 then 200 the cache
serves `getUserWarns` in insertion order, so the most recent record is at the
tail, not at the head as the claim states. -/
theorem getUserWarns_cache_not_newest_first :
    (Warn.getUserWarns warnSt2 gJ uJ).map (fun e => e.createdAt) = [100, 200]
    ∧ ¬ (Warn.getUserWarns warnSt2 gJ uJ).Pairwise
        (fun a b => b.createdAt ≤ a.createdAt) := by
  decide

/-- C8 counterexample: the composite key `${groupJid}:${userJid}` does not
distinguish every pair of distinct inputs: the distinct pairs
`("a:b", "c")` and `("a", "b:c")` share the key `"a:b:c"`, so incrementing
the first pair's counter changes the second pair's observed count. -/
theorem warnCounts_key_collision :
    ((codes "a:b", codes "c") ≠ (codes "a", codes "b:c"))
    ∧ mkKey (codes "a:b") (codes "c") = mkKey (codes "a") (codes "b:c")
    ∧ AntiLink.getWarnCount
        (AntiLink.incrementWarnCount emptyCounts (codes "a:b") (codes "c")).2
        (codes "a") (codes "b:c") = 1
    ∧ AntiLink.getWarnCount emptyCounts (codes "a") (codes "b:c") = 0 := by
  refine ⟨by decide, by decide, ?_, by decide⟩
  decide

/-- C8 amended: provided the group jids contain no colon (code 58), the
composite key is injective, so an `incrementWarnCount` or `resetWarnCount`
on one pair leaves every other pair's `getWarnCount` unchanged, and
`clearAllWarns` on one group leaves the counters of every other group
unchanged. -/
theorem warnCounts_isolated_without_colon (g1 u1 g2 u2 : Str)
    (m : AntiLink.CountMap) (h1 : 58 ∉ g1) (h2 : 58 ∉ g2)
    (hne : (g1, u1) ≠ (g2, u2)) :
    mkKey g1 u1 ≠ mkKey g2 u2
    ∧ AntiLink.getWarnCount (AntiLink.incrementWarnCount m g1 u1).2 g2 u2
        = AntiLink.getWarnCount m g2 u2
    ∧ AntiLink.getWarnCount (AntiLink.resetWarnCount m g1 u1) g2 u2
        = AntiLink.getWarnCount m g2 u2
    ∧ (g1 ≠ g2 →
        AntiLink.getWarnCount (AntiLink.clearAllWarns m g1) g2 u2
          = AntiLink.getWarnCount m g2 u2) := by
  have hk : mkKey g1 u1 ≠ mkKey g2 u2 := by
    intro h
    obtain ⟨hg, hu⟩ := mkKey_inj g1 g2 h1 h2 u1 u2 h
    exact hne (by rw [hg, hu])
  refine ⟨hk, ?_, ?_, ?_⟩
  · simp only [AntiLink.getWarnCount, AntiLink.incrementWarnCount]
    rw [if_neg (Ne.symm hk)]
  · simp only [AntiLink.getWarnCount, AntiLink.resetWarnCount]
    rw [if_neg (Ne.symm hk)]
  · intro hg
    have hpre : jsStartsWith (g1 ++ [58]) (mkKey g2 u2) = false := by
      cases h : jsStartsWith (g1 ++ [58]) (mkKey g2 u2)
      · rfl
      · exact absurd (groupKey_startsWith_inj g1 g2 h1 h2 u2 h) hg
    simp only [AntiLink.getWarnCount, AntiLink.clearAllWarns]
    rw [hpre]
    rfl

/-- C8 amended, applied: a concrete colon-free instance of the isolation
theorem with every hypothesis discharged. -/
theorem warnCounts_isolated_without_colon_app :
    AntiLink.getWarnCount
      (AntiLink.incrementWarnCount emptyCounts (codes "a") (codes "bc")).2
      (codes "ab") (codes "c")
    = AntiLink.getWarnCount emptyCounts (codes "ab") (codes "c") :=
  (warnCounts_isolated_without_colon (codes "a") (codes "bc") (codes "ab") (codes "c")
    emptyCounts (by decide) (by decide) (by decide)).2.1

/-- C4: under the `normal` strictness the leetspeak variants of a trigger
word are exactly the word itself plus, for each of the letters a, e, i, s, o
present in it, the strings replacing every occurrence of that single letter
by its substitutions (a to @ or 4, e to 3, i to 1 or !, s to 5 or $, o to 0),
deduplicated and never combined across letters; any variant occurring as a
substring of the lowercased (nonempty) text makes the text match, and in
particular `matches("pl4ntkiller", ["plant"], normal)` is true. -/
theorem leetVariations_normal_match :
    (∀ w v : Str, v ∈ AntiBad.generateLeetVariations w ↔
      (v = w
        ∨ (97 ∈ w ∧ (v = AntiBad.replaceAll 97 64 w ∨ v = AntiBad.replaceAll 97 52 w))
        ∨ (101 ∈ w ∧ v = AntiBad.replaceAll 101 51 w)
        ∨ (105 ∈ w ∧ (v = AntiBad.replaceAll 105 49 w ∨ v = AntiBad.replaceAll 105 33 w))
        ∨ (115 ∈ w ∧ (v = AntiBad.replaceAll 115 53 w ∨ v = AntiBad.replaceAll 115 36 w))
        ∨ (111 ∈ w ∧ v = AntiBad.replaceAll 111 48 w)))
    ∧ (∀ (text : Str) (W : List Str) (w v : Str), text ≠ [] → w ∈ W →
        v ∈ AntiBad.generateLeetVariations w → SubstringOf v (jsLower text) →
        AntiBad.containsBadWord text W AntiBad.FilterType.normal = true)
    ∧ AntiBad.containsBadWord (codes "pl4ntkiller") [codes "plant"]
        AntiBad.FilterType.normal = true := by
  refine ⟨?_, ?_, by decide⟩
  · intro w v
    rw [AntiBad.generateLeetVariations, mem_jsDedup]
    simp only [List.contains, List.elem_eq_mem, List.mem_append, mem_ite_nil,
      List.mem_cons, List.mem_singleton, List.not_mem_nil, or_false,
      decide_eq_true_eq]
    tauto
  · intro text W w v ht hw hv hsub
    have hte : text.isEmpty = false := by
      cases text
      · exact absurd rfl ht
      · rfl
    have hWe : W.isEmpty = false := by
      cases W
      · cases hw
      · rfl
    rw [AntiBad.containsBadWord]
    rw [hte, hWe]
    rw [if_neg (by decide : ¬ ((false || false) = true))]
    rw [List.any_eq_true]
    refine ⟨w, hw, ?_⟩
    rw [Bool.or_eq_true]
    right
    rw [List.any_eq_true]
    exact ⟨v, hv, jsIncludes_of_substring hsub⟩

/-- C6: evidence that `autoResetOldWarns` is a logged no-op whenever any
settings row exists.  Building the destroy filter reads `DataTypes.Op.lt`,
but sequelize's `DataTypes` has no `Op` member, so the first iteration
throws before any destroy and the function-level catch swallows the error:
nothing is deleted and the cache is never rebuilt.  Concretely, a
10-day-old warn of a group configured to reset after 7 days survives the
sweep (with one group or with two), and the cache stays empty at the warn's
key even though `refreshWarnCache` would have populated it — both
contradicting the claimed per-group deletion and cache rebuild. -/
theorem autoResetOldWarns_noop_bug :
    (Warn.autoResetOldWarns c6stateTwo (20 * Warn.dayMs)).rows = [c6rowOld]
    ∧ (Warn.autoResetOldWarns c6stateOne (20 * Warn.dayMs)).rows = [c6rowOld]
    ∧ (Warn.autoResetOldWarns c6stateOne (20 * Warn.dayMs)).cache
        (mkKey (codes "g2") uJ) = none
    ∧ (Warn.refreshWarnCache c6stateOne).cache (mkKey (codes "g2") uJ)
        = some [Warn.toEntry c6rowOld] := by
  refine ⟨rfl, rfl, rfl, ?_⟩
  decide

/-- C4 applied: the leet-substring conjunct instantiated at a concrete input
with every hypothesis discharged. -/
theorem leetVariations_normal_match_app :
    AntiBad.containsBadWord (codes "x pl4ntz") [codes "plant"]
      AntiBad.FilterType.normal = true :=
  leetVariations_normal_match.2.1 (codes "x pl4ntz") [codes "plant"]
    (codes "plant") (codes "pl4nt") (by decide) (by decide) (by decide)
    ⟨codes "x ", codes "z", by decide⟩

theorem tail_append_now (l : List Nat) (a : Nat) (hne : l ≠ []) :
    (l ++ [a]).tail = l.tail ++ [a] := by
  cases l with
  | nil => exact absurd rfl hne
  | cons x xs => rfl

theorem mem_append_push_shift (base : List Nat) (t0 : Nat) :
    t0 ∈ (if 20 < (base ++ [t0]).length then (base ++ [t0]).tail else base ++ [t0]) := by
  split
  · rename_i hlen
    cases base with
    | nil => simp at hlen
    | cons b bs =>
      rw [List.cons_append, List.tail_cons]
      exact List.mem_append_right _ (List.mem_singleton.mpr rfl)
  · exact List.mem_append_right _ (List.mem_singleton.mpr rfl)

/-- C2: `getUserMessageCount` filters the key's stored timestamps to those
within the window, stores the filtered list back for that key (leaving other
keys unchanged), and returns the filtered length; `addUserMessage` followed
immediately by a zero-window count at the same instant returns at least 1,
and once the clock has advanced past the window the count (from a fresh
record) is 0. -/
theorem getUserMessageCount_spec (st st' : AntiSpam.SpamState) (g u : Str)
    (w now t0 t1 : Nat) (ts : List Nat)
    (h : st (mkKey g u) = some ts) (hlt : t0 < t1) :
    (AntiSpam.getUserMessageCount st g u w now).1
        = (ts.filter (fun time => now - time ≤ w * 1000)).length
    ∧ (AntiSpam.getUserMessageCount st g u w now).2 (mkKey g u)
        = some (ts.filter (fun time => now - time ≤ w * 1000))
    ∧ (∀ k, k ≠ mkKey g u → (AntiSpam.getUserMessageCount st g u w now).2 k = st k)
    ∧ 1 ≤ (AntiSpam.getUserMessageCount (AntiSpam.addUserMessage st' g u t0) g u 0 t0).1
    ∧ (AntiSpam.getUserMessageCount
        (AntiSpam.addUserMessage AntiSpam.emptySpamState g u t0) g u 0 t1).1 = 0 := by
  refine ⟨?_, ?_, ?_, ?_, ?_⟩
  · simp [AntiSpam.getUserMessageCount, h]
  · simp [AntiSpam.getUserMessageCount, h]
  · intro k hk
    simp only [AntiSpam.getUserMessageCount, h]
    rw [if_neg hk]
  · have hkey : AntiSpam.addUserMessage st' g u t0 (mkKey g u)
        = some (if 20 < (((st' (mkKey g u)).getD []) ++ [t0]).length
            then (((st' (mkKey g u)).getD []) ++ [t0]).tail
            else ((st' (mkKey g u)).getD []) ++ [t0]) := by
      simp [AntiSpam.addUserMessage]
    rw [AntiSpam.getUserMessageCount, hkey]
    have hmem : t0 ∈ (if 20 < (((st' (mkKey g u)).getD []) ++ [t0]).length
        then (((st' (mkKey g u)).getD []) ++ [t0]).tail
        else ((st' (mkKey g u)).getD []) ++ [t0]) := mem_append_push_shift _ t0
    have : t0 ∈ (if 20 < (((st' (mkKey g u)).getD []) ++ [t0]).length
        then (((st' (mkKey g u)).getD []) ++ [t0]).tail
        else ((st' (mkKey g u)).getD []) ++ [t0]).filter
          (fun time => t0 - time ≤ 0 * 1000) := by
      rw [List.mem_filter]
      exact ⟨hmem, by simp⟩
    calc 1 ≤ 1 := le_refl 1
    _ ≤ _ := List.length_pos.mpr (List.ne_nil_of_mem this)
  · have h5 : t1 - t0 ≠ 0 := by omega
    simp [AntiSpam.addUserMessage, AntiSpam.getUserMessageCount,
      AntiSpam.emptySpamState, List.filter, h5]

/-- C2 applied: the window-filter conjunct instantiated at a concrete state
with every hypothesis discharged. -/
theorem getUserMessageCount_spec_app :
    (AntiSpam.getUserMessageCount spamStW gJ uJ 2 2000).1
      = ([5].filter (fun time => 2000 - time ≤ 2 * 1000)).length :=
  (getUserMessageCount_spec spamStW AntiSpam.emptySpamState gJ uJ 2 2000 3 4 [5]
    (by rfl) (by decide)).1

/-- C9: every `addUserMessage` keeps the affected key's timestamp list at
length at most 20 and in chronological order (given a monotone clock); when
the append would exceed 20 entries exactly the oldest entry is shifted off,
otherwise the list is just appended to; and the 20-entry bound is preserved
by every other rate-window operation (`getUserMessageCount`,
`clearUserMessages`, `clearAllGroupMessages`, and the full clear). -/
theorem addUserMessage_bounded_invariant (st : AntiSpam.SpamState) (g u : Str)
    (w now : Nat) :
    ((∀ k l, st k = some l → l.length ≤ 20) →
      ∀ k l, AntiSpam.addUserMessage st g u now k = some l → l.length ≤ 20)
    ∧ (∀ l, st (mkKey g u) = some l → l.length = 20 →
      AntiSpam.addUserMessage st g u now (mkKey g u) = some (l.tail ++ [now]))
    ∧ (∀ l, st (mkKey g u) = some l → l.length < 20 →
      AntiSpam.addUserMessage st g u now (mkKey g u) = some (l ++ [now]))
    ∧ ((∀ k l, st k = some l → l.Pairwise (fun a b => a ≤ b)) →
      (∀ l, st (mkKey g u) = some l → ∀ t ∈ l, t ≤ now) →
      ∀ k l, AntiSpam.addUserMessage st g u now k = some l →
        l.Pairwise (fun a b => a ≤ b))
    ∧ ((∀ k l, st k = some l → l.length ≤ 20) →
      ∀ k l, (AntiSpam.getUserMessageCount st g u w now).2 k = some l → l.length ≤ 20)
    ∧ ((∀ k l, st k = some l → l.length ≤ 20) →
      ∀ k l, AntiSpam.clearUserMessages st g u k = some l → l.length ≤ 20)
    ∧ ((∀ k l, st k = some l → l.length ≤ 20) →
      ∀ k l, AntiSpam.clearAllGroupMessages st g k = some l → l.length ≤ 20)
    ∧ (∀ k l, AntiSpam.clearAllMessages st k = some l → l.length ≤ 20) := by
  refine ⟨?_, ?_, ?_, ?_, ?_, ?_, ?_, ?_⟩
  · intro hb k l hl
    simp only [AntiSpam.addUserMessage] at hl
    by_cases hk : k = mkKey g u
    · rw [if_pos hk] at hl
      injection hl with hl
      subst hl
      have hbase : ((st (mkKey g u)).getD []).length ≤ 20 := by
        cases hc : st (mkKey g u) with
        | none => simp
        | some l0 => simpa using hb _ l0 hc
      split
      · rw [List.length_tail, List.length_append]
        simp only [List.length_singleton]
        omega
      · rename_i hlen
        rw [List.length_append] at hlen ⊢
        simp only [List.length_singleton] at hlen ⊢
        omega
    · rw [if_neg hk] at hl
      exact hb k l hl
  · intro l hl hlen
    simp only [AntiSpam.addUserMessage, hl, Option.getD_some, if_pos]
    have h21 : 20 < (l ++ [now]).length := by
      rw [List.length_append]
      simp only [List.length_singleton]
      omega
    rw [if_pos h21, tail_append_now l now (by intro he; rw [he] at hlen; simp at hlen)]
  · intro l hl hlen
    simp only [AntiSpam.addUserMessage, hl, Option.getD_some, if_pos]
    have h21 : ¬ 20 < (l ++ [now]).length := by
      rw [List.length_append]
      simp only [List.length_singleton]
      omega
    rw [if_neg h21]
  · intro hp hle k l hl
    simp only [AntiSpam.addUserMessage] at hl
    by_cases hk : k = mkKey g u
    · rw [if_pos hk] at hl
      injection hl with hl
      subst hl
      have hbase : ((st (mkKey g u)).getD []).Pairwise (fun a b => a ≤ b) := by
        cases hc : st (mkKey g u) with
        | none => simp
        | some l0 => simpa using hp _ l0 hc
      have hble : ∀ t ∈ (st (mkKey g u)).getD [], t ≤ now := by
        cases hc : st (mkKey g u) with
        | none => simp
        | some l0 => simpa using hle l0 hc
      have happ : (((st (mkKey g u)).getD []) ++ [now]).Pairwise (fun a b => a ≤ b) := by
        rw [List.pairwise_append]
        refine ⟨hbase, by simp, ?_⟩
        intro a ha b hb
        rw [List.mem_singleton] at hb
        subst hb
        exact hble a ha
      split
      · exact List.Pairwise.sublist (List.tail_sublist _) happ
      · exact happ
    · rw [if_neg hk] at hl
      exact hp k l hl
  · intro hb k l hl
    simp only [AntiSpam.getUserMessageCount] at hl
    cases hc : st (mkKey g u) with
    | none =>
      rw [hc] at hl
      exact hb k l hl
    | some ts =>
      rw [hc] at hl
      simp only at hl
      by_cases hk : k = mkKey g u
      · rw [if_pos hk] at hl
        injection hl with hl
        subst hl
        exact le_trans (List.length_filter_le _ _) (by simpa using hb _ ts hc)
      · rw [if_neg hk] at hl
        exact hb k l hl
  · intro hb k l hl
    simp only [AntiSpam.clearUserMessages] at hl
    by_cases hk : k = mkKey g u
    · rw [if_pos hk] at hl
      cases hl
    · rw [if_neg hk] at hl
      exact hb k l hl
  · intro hb k l hl
    simp only [AntiSpam.clearAllGroupMessages] at hl
    cases hk : jsStartsWith (g ++ [58]) k with
    | true =>
      rw [hk] at hl
      simp at hl
    | false =>
      rw [hk] at hl
      simp only [Bool.false_eq_true, if_false] at hl
      exact hb k l hl
  · intro k l hl
    cases hl

theorem getWarnSettings_state (st : Warn.WarnState) (g : Str) (now : Nat) :
    (Warn.getWarnSettings st g now).2.cache = st.cache
    ∧ (Warn.getWarnSettings st g now).2.nextId = st.nextId
    ∧ (Warn.getWarnSettings st g now).2.rows = st.rows := by
  rw [Warn.getWarnSettings]
  cases Warn.lookupSettings st.settings g <;> exact ⟨rfl, rfl, rfl⟩

theorem getWarnSettings_found {st : Warn.WarnState} {g : Str}
    {s : Warn.WarnSettingsRow} (h : Warn.lookupSettings st.settings g = some s)
    (now : Nat) : Warn.getWarnSettings st g now = (s, st) := by
  rw [Warn.getWarnSettings, h]

theorem addWarn_cache_key (st : Warn.WarnState) (g u wb rs : Str) (now : Nat) :
    (Warn.addWarn st g u wb rs now).2.cache (mkKey g u)
      = some (((st.cache (mkKey g u)).getD [])
          ++ [(⟨st.nextId, wb, rs, now⟩ : Warn.WarnEntry)]) := by
  obtain ⟨hc, hn, _⟩ := getWarnSettings_state st g now
  simp [Warn.addWarn, Warn.toEntry, hc, hn]

theorem addWarn_result {st : Warn.WarnState} {g : Str} (u wb rs : Str) (now : Nat)
    {s : Warn.WarnSettingsRow} (hs : Warn.lookupSettings st.settings g = some s) :
    (Warn.addWarn st g u wb rs now).1
      = (((st.cache (mkKey g u)).getD []).length + 1, st.nextId, s.warn_limit) := by
  simp [Warn.addWarn, getWarnSettings_found hs, Warn.getUserWarnCount, Warn.toEntry]

theorem addWarn_settings {st : Warn.WarnState} {g : Str} (u wb rs : Str) (now : Nat)
    {s : Warn.WarnSettingsRow} (hs : Warn.lookupSettings st.settings g = some s) :
    (Warn.addWarn st g u wb rs now).2.settings = st.settings := by
  simp [Warn.addWarn, getWarnSettings_found hs]

/-- C3: starting from a state whose cache has no entry for the pair and whose
group has a configured settings row, the Nth successful `addWarn` for the
pair returns `warnCount = N` together with the group's configured
`warn_limit` (the tracker returns the count and limit for the caller to act
on), and a `clearUserWarns` makes `getUserWarnCount` for the pair return 0
from any state. -/
theorem addWarn_nth_count (st0 st' : Warn.WarnState) (g u wb rs : Str) (now : Nat)
    (s : Warn.WarnSettingsRow) (n : Nat)
    (hs : Warn.lookupSettings st0.settings g = some s)
    (hc : st0.cache (mkKey g u) = none) :
    (Warn.addWarn (Warn.addWarnIter g u wb rs now n st0) g u wb rs now).1.1 = n + 1
    ∧ (Warn.addWarn (Warn.addWarnIter g u wb rs now n st0) g u wb rs now).1.2.2
        = s.warn_limit
    ∧ Warn.getUserWarnCount (Warn.clearUserWarns st' g u) g u = 0 := by
  have haux : ∀ m,
      Warn.lookupSettings (Warn.addWarnIter g u wb rs now m st0).settings g = some s
      ∧ (((Warn.addWarnIter g u wb rs now m st0).cache (mkKey g u)).getD []).length
          = m := by
    intro m
    induction m with
    | zero =>
      refine ⟨hs, ?_⟩
      rw [Warn.addWarnIter, hc]
      rfl
    | succ k ihk =>
      constructor
      · rw [Warn.addWarnIter, addWarn_settings u wb rs now ihk.1]
        exact ihk.1
      · rw [Warn.addWarnIter, addWarn_cache_key]
        simp [ihk.2]
  refine ⟨?_, ?_, ?_⟩
  · rw [addWarn_result u wb rs now (haux n).1, (haux n).2]
  · rw [addWarn_result u wb rs now (haux n).1]
  · simp only [Warn.getUserWarnCount, Warn.clearUserWarns, if_pos]
    have hff : ∀ l : List Warn.WarnRow,
        (l.filter (fun r => !(r.groupJid == g && r.userJid == u))).filter
          (fun r => r.groupJid == g && r.userJid == u) = [] := by
      intro l
      induction l with
      | nil => rfl
      | cons r rl ih =>
        rw [List.filter_cons]
        cases hr : (r.groupJid == g && r.userJid == u) with
        | true =>
          simp only [Bool.not_true, Bool.false_eq_true, if_false]
          exact ih
        | false =>
          simp only [Bool.not_false, if_true]
          rw [List.filter_cons, hr]
          simp only [Bool.false_eq_true, if_false]
          exact ih
    rw [hff st'.rows]
    rfl

/-- C3 applied: the second `addWarn` for `(gJ, uJ)` from the fixture state
(configured `warn_limit = 4`) returns count 2 and limit 4, and clearing the
pair after two warns yields count 0, with every hypothesis discharged. -/
theorem addWarn_nth_count_app :
    (Warn.addWarn (Warn.addWarnIter gJ uJ (codes "mod") (codes "r") 50 1 warnSt0)
      gJ uJ (codes "mod") (codes "r") 50).1.1 = 2
    ∧ (Warn.addWarn (Warn.addWarnIter gJ uJ (codes "mod") (codes "r") 50 1 warnSt0)
      gJ uJ (codes "mod") (codes "r") 50).1.2.2 = 4
    ∧ Warn.getUserWarnCount (Warn.clearUserWarns warnSt2 gJ uJ) gJ uJ = 0 :=
  addWarn_nth_count warnSt0 warnSt2 gJ uJ (codes "mod") (codes "r") 50
    ⟨gJ, Status.on, 4, 7, 0⟩ 1 (by decide) (by rfl)

/-- C5 amended: `getUserWarns` returns the pair's records newest first
(createdAt descending) when served from the persistent store; when the key
is cached it returns the cache list unchanged, and `addWarn` appends the new
most-recent record at the tail of that list, which under a monotone clock
keeps cache-served lists oldest first (createdAt ascending), not newest
first. -/
theorem getUserWarns_order_amended (st : Warn.WarnState) (g u wb rs : Str)
    (now : Nat) (l0 : List Warn.WarnEntry) :
    (st.cache (mkKey g u) = none →
      (Warn.getUserWarns st g u).Pairwise (fun a b => b.createdAt ≤ a.createdAt))
    ∧ (st.cache (mkKey g u) = some l0 → Warn.getUserWarns st g u = l0)
    ∧ ((Warn.addWarn st g u wb rs now).2.cache (mkKey g u)
        = some (((st.cache (mkKey g u)).getD [])
            ++ [(⟨st.nextId, wb, rs, now⟩ : Warn.WarnEntry)]))
    ∧ (((st.cache (mkKey g u)).getD []).Pairwise (fun a b => a.createdAt ≤ b.createdAt) →
      (∀ e ∈ (st.cache (mkKey g u)).getD [], e.createdAt ≤ now) →
      (((st.cache (mkKey g u)).getD [])
          ++ [(⟨st.nextId, wb, rs, now⟩ : Warn.WarnEntry)]).Pairwise
        (fun a b => a.createdAt ≤ b.createdAt)) := by
  refine ⟨?_, ?_, addWarn_cache_key st g u wb rs now, ?_⟩
  · intro hc
    simp only [Warn.getUserWarns, hc]
    rw [List.pairwise_map]
    exact pairwise_sortDescBy _
  · intro hc
    simp only [Warn.getUserWarns, hc]
  · intro hp hle
    rw [List.pairwise_append]
    refine ⟨hp, by simp, ?_⟩
    intro a ha b hb
    rw [List.mem_singleton] at hb
    subst hb
    exact hle a ha

/-- C5 amended, applied: a store-served list is newest first on the fixture
state with an empty cache, with the hypothesis discharged. -/
theorem getUserWarns_order_amended_app :
    (Warn.getUserWarns warnSt0 gJ uJ).Pairwise
      (fun a b => b.createdAt ≤ a.createdAt) :=
  (getUserWarns_order_amended warnSt0 gJ uJ (codes "m") (codes "r") 5 []).1 (by rfl)

theorem regexBoundaryTest_lower_iff (w t : Str) :
    AntiBad.regexBoundaryTest w (jsLower t) = true ↔ OccursAtBoundaryCI w t := by
  rw [AntiBad.regexBoundaryTest, List.any_eq_true]
  have hlen : (jsLower t).length = t.length := List.length_map _ _
  constructor
  · rintro ⟨i, hir, hm⟩
    rw [List.mem_range] at hir
    rw [AntiBad.matchStrictAt] at hm
    simp only [Bool.and_eq_true, Bool.or_eq_true, beq_iff_eq, Bool.not_eq_true'] at hm
    obtain ⟨⟨hpre, hb1⟩, hb2⟩ := hm
    rw [jsStartsWith_iff] at hpre
    have hwlen : w.length ≤ t.length - i := by
      have := congrArg List.length hpre
      rw [List.length_take, List.length_drop, hlen] at this
      omega
    have hle : i + w.length ≤ t.length := by omega
    refine ⟨i, hle, ?_, ?_, ?_⟩
    · rw [jsLower, List.map_take, List.map_drop]
      exact hpre
    · rcases hb1 with h0 | hb
      · exact Or.inl h0
      · right
        rw [jsLower_getD, isWordChar_jsLowerChar] at hb
        exact hb
    · rcases hb2 with hend | hb
      · left
        rw [hlen] at hend
        exact hend
      · right
        rw [jsLower_getD, isWordChar_jsLowerChar] at hb
        exact hb
  · rintro ⟨i, hle, heq, hb1, hb2⟩
    refine ⟨i, ?_, ?_⟩
    · rw [List.mem_range]
      omega
    · rw [AntiBad.matchStrictAt]
      simp only [Bool.and_eq_true, Bool.or_eq_true, beq_iff_eq, Bool.not_eq_true']
      refine ⟨⟨?_, ?_⟩, ?_⟩
      · rw [jsStartsWith_iff, jsLower, ← List.map_drop, ← List.map_take]
        exact heq
      · rcases hb1 with h0 | hb
        · exact Or.inl h0
        · right
          rw [jsLower_getD, isWordChar_jsLowerChar]
          exact hb
      · rcases hb2 with hend | hb
        · left
          rw [hlen]
          exact hend
        · right
          rw [jsLower_getD, isWordChar_jsLowerChar]
          exact hb

/-- C1: for a list of normalized words (nonempty, made of lowercase word
characters, the envelope on which the embedded `\b` semantics is the
ECMAScript one), `containsBadWord` under `strict` returns true iff some word
of the list occurs in the text case-insensitively at a token boundary; the
right-to-left reading excludes any match of a word occurring only inside a
larger word. -/
theorem containsBadWord_strict_iff (text : Str) (W : List Str)
    (hW : ∀ w ∈ W, w ≠ [] ∧ ∀ c ∈ w, isWordChar c = true ∧ jsLowerChar c = c) :
    AntiBad.containsBadWord text W AntiBad.FilterType.strict = true
      ↔ ∃ w ∈ W, OccursAtBoundaryCI w text := by
  rw [AntiBad.containsBadWord]
  by_cases ht : text = []
  · subst ht
    simp only [List.isEmpty_nil, Bool.true_or]
    rw [if_pos trivial]
    constructor
    · intro h
      cases h
    · rintro ⟨w, hw, i, hle, _, _, _⟩
      rw [List.length_nil] at hle
      have hnil : w = [] := List.eq_nil_of_length_eq_zero (by omega)
      exact absurd hnil (hW w hw).1
  · have hte : text.isEmpty = false := by
      cases text
      · exact absurd rfl ht
      · rfl
    rw [hte]
    cases W with
    | nil => simp
    | cons w0 ws =>
      rw [if_neg (by simp)]
      rw [List.any_eq_true]
      constructor
      · rintro ⟨w, hw, htest⟩
        exact ⟨w, hw, (regexBoundaryTest_lower_iff w text).mp htest⟩
      · rintro ⟨w, hw, hocc⟩
        exact ⟨w, hw, (regexBoundaryTest_lower_iff w text).mpr hocc⟩

/-- C1 applied: the strict-boundary equivalence instantiated at a concrete
word list and text, with the word-list hypothesis discharged. -/
theorem containsBadWord_strict_iff_app :
    AntiBad.containsBadWord (codes "my PLANT here") [codes "plant"]
      AntiBad.FilterType.strict = true
      ↔ ∃ w ∈ [codes "plant"], OccursAtBoundaryCI w (codes "my PLANT here") :=
  containsBadWord_strict_iff (codes "my PLANT here") [codes "plant"] (by decide)

/-- C9 applied: the exact-eviction conjunct instantiated at a concrete state
whose key already holds 20 timestamps, with every hypothesis discharged. -/
theorem addUserMessage_bounded_invariant_app :
    AntiSpam.addUserMessage spamStFull gJ uJ 99 (mkKey gJ uJ)
      = some ((List.range 20).tail ++ [99]) :=
  (addUserMessage_bounded_invariant spamStFull gJ uJ 0 99).2.1 (List.range 20)
    (by rfl) (by decide)

end KeithMD
